import Mathlib

/-!
Shallow embedding of the confluence-dumper repository's reconciliation logic.

Source files embedded:
* `src/file_cleaner.py` — class `URLProcessor`: `extract_href_urls`,
  `create_page_id_mapping`, `clean_export_data`, and the `__main__`
  multi-space orchestration loop.
* `src/utils.py` — `extract_content`.

Modelling conventions:
* Python strings are Lean `String`; string primitives (`rstrip`, `split`,
  `startswith`, `endswith`, the `in` substring test) are re-implemented over
  `List Char` exactly following their Python semantics (for the ASCII data
  this program handles).
* A Python dict (whose iteration order is insertion order) is an ordered
  association list `List (String × String)`; `dict[k] = v` updates the value
  in place when the key exists and appends otherwise.
* A parsed JSON export record is `ExportRecord`; a possibly-missing
  `internal_url` field is an `Option`, and any further fields live in
  `extra`.  Reading a missing key (Python `KeyError`) and the
  `ZeroDivisionError` in the report line are modelled with `Except`/`Option`.
* The filesystem folder is a list of `(filename, parsed content)` pairs in
  listing order; "writing an output file" is collecting it into the
  `outputs` list of the result.
* The network fetch inside `create_page_id_mapping` is a parameter
  `resolve : String → String` giving the page id each URL resolves to.
-/

namespace ConfluenceDumper

/-- One entry of the `paragraphs` field of an export record:
`{"header": ..., "content": ...}`. -/
structure Paragraph where
  header : String
  content : String
deriving DecidableEq

/-- A parsed JSON export record.  `internal_url = none` means the document
has no `internal_url` key; `extra` holds any fields beyond the four the
cleaner knows about (name/value pairs, values kept opaque). -/
structure ExportRecord where
  title : String
  url : String
  internal_url : Option String
  paragraphs : List Paragraph
  extra : List (String × String)
deriving DecidableEq

/-- Python `pre.isPrefixOf`-style test: `s.startswith(p)`. -/
def pyStartswith (s p : String) : Bool :=
  p.toList.isPrefixOf s.toList

/-- Python `s.endswith(p)`. -/
def pyEndswith (s p : String) : Bool :=
  p.toList.isSuffixOf s.toList

/-- Python substring containment over char lists: `needle in hay`. -/
def containsSub (hay needle : List Char) : Bool :=
  match hay with
  | [] => needle.isPrefixOf []
  | _ :: t => needle.isPrefixOf hay || containsSub t needle

/-- Python `needle in hay` on strings. -/
def strContains (hay needle : String) : Bool :=
  containsSub hay.toList needle.toList

/-- Python `s.rstrip("/")`: remove every trailing `'/'`. -/
def rstripSlashes (s : String) : String :=
  (s.toList.rdropWhile (fun c => c == '/')).asString

/-- Python `s.split("/")` for the one-character separator `"/"`:
splits on every occurrence, keeping empty segments, and yields `[[]]`
on the empty string. -/
def splitOnSlash : List Char → List (List Char)
  | [] => [[]]
  | c :: cs =>
    if c == '/' then [] :: splitOnSlash cs
    else
      match splitOnSlash cs with
      | [] => [[c]]
      | g :: gs => (c :: g) :: gs

/-- `data["url"].rstrip("/").split("/")[-1]` from
`URLProcessor.clean_export_data` (src/file_cleaner.py line 63). -/
def currentPageId (url : String) : String :=
  ((splitOnSlash (rstripSlashes url).toList).getLastD []).asString

/-- `URLProcessor.mapping`: a Python dict from URL to page id, iteration
order = insertion order. -/
abbrev Mapping := List (String × String)

/-- `self.mapping.values()`. -/
def mappingValues (m : Mapping) : List String :=
  m.map Prod.snd

/-- `any(page_id == current_page_id for page_id in self.mapping.values())`
(src/file_cleaner.py line 65). -/
def anyValueMatches (m : Mapping) (url : String) : Bool :=
  (mappingValues m).any (fun v => v == currentPageId url)

/-- The `for key, value in self.mapping.items(): if value in data["url"]:
... break` scan (src/file_cleaner.py lines 66-70): the first mapping entry
whose identifier is a substring of the record's url. -/
def findSubstringEntry (m : Mapping) (url : String) : Option (String × String) :=
  m.find? (fun kv => strContains url kv.snd)

/-- The body of that loop: when an entry `(key, value)` matches, set
`data["internal_url"] = data["url"]` and then `data["url"] = key`;
when none matches, leave the record as it is. -/
def rewriteRecord (m : Mapping) (data : ExportRecord) : ExportRecord :=
  match findSubstringEntry m data.url with
  | some kv => ExportRecord.mk data.title kv.fst (some data.url) data.paragraphs data.extra
  | none => data

/-- `data = {k: data[k] for k in ["title", "internal_url", "url",
"paragraphs"]}` (src/file_cleaner.py line 75).  Of the four keys only
`internal_url` can be absent; `none` is the resulting `KeyError`. -/
def restrictFields (data : ExportRecord) : Option ExportRecord :=
  match data.internal_url with
  | some iu => some (ExportRecord.mk data.title data.url (some iu) data.paragraphs [])
  | none => none

/-- Outcome of `clean_export_data`'s loop body for one `.json` record. -/
inductive ProcessResult where
  | emit : ExportRecord → ProcessResult
  | fail : String → ProcessResult
  | skip : ProcessResult
  | keyError : ProcessResult
deriving DecidableEq

/-- Per-record logic of `URLProcessor.clean_export_data`
(src/file_cleaner.py lines 63-82): page-id equality scan, first-substring
rewrite, "Forward to" skip, field restriction; otherwise the record is a
failed mapping. -/
def processRecord (m : Mapping) (data : ExportRecord) : ProcessResult :=
  if anyValueMatches m data.url then
    let d := rewriteRecord m data
    if pyStartswith d.title "Forward to" then ProcessResult.skip
    else
      match restrictFields d with
      | some r => ProcessResult.emit r
      | none => ProcessResult.keyError
  else ProcessResult.fail data.url

/-- The observable result of a `clean_export_data` run: the files written
to the output folder (in processing order) and the `good_mappings` /
`failed_mappings` lists. -/
structure CleanResult where
  outputs : List (String × ExportRecord)
  good : List String
  failed : List String
deriving DecidableEq

/-- The file loop of `URLProcessor.clean_export_data`
(src/file_cleaner.py lines 53-82): non-`.json` filenames are skipped,
each record is processed, emitted records are written under their input
filename and their new url appended to `good_mappings`, unmatched records
append their url to `failed_mappings`; an uncaught `KeyError` aborts. -/
def cleanFiles (m : Mapping) : List (String × ExportRecord) → Except Unit CleanResult
  | [] => Except.ok (CleanResult.mk [] [] [])
  | (fname, data) :: rest =>
    if pyEndswith fname ".json" then
      match processRecord m data with
      | ProcessResult.emit r =>
        match cleanFiles m rest with
        | Except.ok res => Except.ok (CleanResult.mk ((fname, r) :: res.outputs) (r.url :: res.good) res.failed)
        | Except.error e => Except.error e
      | ProcessResult.fail u =>
        match cleanFiles m rest with
        | Except.ok res => Except.ok (CleanResult.mk res.outputs res.good (u :: res.failed))
        | Except.error e => Except.error e
      | ProcessResult.skip => cleanFiles m rest
      | ProcessResult.keyError => Except.error ()
    else cleanFiles m rest

/-- `len(good_mappings)/len(good_mappings+failed_mappings)`
(src/file_cleaner.py line 84); `none` is Python's `ZeroDivisionError`
when both lists are empty. -/
def successRate (good failed : List String) : Option ℚ :=
  if good.length + (failed : List String).length == 0 then none
  else some ((good.length : ℚ) / (((good ++ failed).length : ℕ) : ℚ))

/-- `URLProcessor.clean_export_data` as a whole: process the folder, then
print the report line, whose division raises on an empty folder. -/
def clean_export_data (m : Mapping) (files : List (String × ExportRecord)) :
    Except Unit (CleanResult × ℚ) :=
  match cleanFiles m files with
  | Except.error e => Except.error e
  | Except.ok res =>
    match successRate res.good res.failed with
    | none => Except.error ()
    | some q => Except.ok (res, q)

/-- Fuel-driven scan implementing `re.findall(r'href="([^"]*)"', text)`:
at each position, if the literal `href="` starts here, capture the chars
up to the next `'"'` (the match needs that closing quote) and resume after
it; otherwise advance one char.  Each step consumes at least one input
char, so fuel `= length of the text` always suffices. -/
def findallHrefAux : Nat → List Char → List String
  | 0, _ => []
  | _, [] => []
  | fuel + 1, c :: cs =>
    if ['h', 'r', 'e', 'f', '=', '"'].isPrefixOf (c :: cs) then
      let rest := cs.drop 5
      let cap := rest.takeWhile (fun x => x ≠ '"')
      match rest.dropWhile (fun x => x ≠ '"') with
      | [] => []
      | _ :: tl => cap.asString :: findallHrefAux fuel tl
    else findallHrefAux fuel cs

/-- `re.findall(r'href="([^"]*)"', text)` (src/file_cleaner.py line 18). -/
def findallHref (text : String) : List String :=
  findallHrefAux text.toList.length text.toList

/-- `URLProcessor.extract_href_urls` (src/file_cleaner.py lines 16-20):
`[self.base_url + url for url in urls if url.startswith(f"/{url_subdir}/")]`. -/
def extract_href_urls (base_url : String) (text : String) (url_subdir : String) : List String :=
  (findallHref text).foldr
    (fun u acc => if pyStartswith u ("/" ++ url_subdir ++ "/") then (base_url ++ u) :: acc else acc) []

/-- `dict[k] = v` on an insertion-ordered dict: update in place when the
key is present, append otherwise. -/
def dictInsert (m : Mapping) (k v : String) : Mapping :=
  if m.any (fun kv => kv.fst == k) then
    m.map (fun kv => if kv.fst == k then (k, v) else kv)
  else m ++ [(k, v)]

/-- `k in dict` / key membership. -/
def hasKey (m : Mapping) (k : String) : Bool :=
  m.any (fun kv => kv.fst == k)

/-- `dict.get(k)`: the value stored under `k`, if any. -/
def dictGet (m : Mapping) (k : String) : Option String :=
  (m.find? (fun kv => kv.fst == k)).map Prod.snd

/-- `URLProcessor.create_page_id_mapping` (src/file_cleaner.py lines
34-43): for each url fetch its page id (`resolve`) and store it in the
instance mapping, which is threaded through, never reset. -/
def create_page_id_mapping (resolve : String → String) (m : Mapping) (urls : List String) : Mapping :=
  urls.foldl (fun acc u => dictInsert acc u (resolve u)) m

/-- The `__main__` loop of src/file_cleaner.py (lines 106-126): one
`URLProcessor` instance processes the spaces in sequence, so each space's
`clean_export_data` runs against the mapping accumulated so far. -/
def runSpaces (resolve : String → String) (m : Mapping) :
    List (List String × List (String × ExportRecord)) → List (Except Unit (CleanResult × ℚ))
  | [] => []
  | (urls, folder) :: rest =>
    let m2 := create_page_id_mapping resolve m urls
    clean_export_data m2 folder :: runSpaces resolve m2 rest

/-- One HTML element as seen by `soup.find_all()` in document order:
its tag name and its `get_text()`. -/
structure HtmlElement where
  name : String
  text : String
deriving DecidableEq

/-- `element.name.startswith("h") and len(element.name) == 2 and
element.name[1].isdigit()` (src/utils.py line 78). -/
def isHeadingName (n : String) : Bool :=
  pyStartswith n "h" && n.length == 2 && (n.toList.getD 1 ' ').isDigit

/-- The traversal loop of `extract_content` (src/utils.py lines 73-83):
a running `current_header`, updated at each heading element, and a
paragraph appended for each `p` element with the header active there. -/
def collectParagraphs (current_header : String) : List HtmlElement → List Paragraph
  | [] => []
  | e :: es =>
    if isHeadingName e.name then collectParagraphs e.text es
    else if e.name == "p" then
      Paragraph.mk current_header e.text :: collectParagraphs current_header es
    else collectParagraphs current_header es

/-- `extract_content` (src/utils.py lines 68-91).  `titleTag` is
`soup.title.string` when the document has a title, else `none`. -/
def extract_content (elements : List HtmlElement) (titleTag : Option String) (web_url : String) :
    ExportRecord :=
  ExportRecord.mk (titleTag.getD "No Title") web_url none (collectParagraphs "" elements) []

/-- The header value the traversal holds after walking `els`, starting
from `h0`. -/
def runningHeader (h0 : String) (els : List HtmlElement) : String :=
  els.foldl (fun h e => if isHeadingName e.name then e.text else h) h0

/-! Concrete fixtures for the spec's worked scenarios. -/

/-- The spec's example mapping. -/
def exMapping : Mapping := [("https://kb/x/a", "123"), ("https://kb/x/b", "456")]

/-- The spec's "Page A" input record. -/
def recA : ExportRecord := ExportRecord.mk "Page A" "https://old/path/123" none [] []

/-- The cleaned "Page A" output record. -/
def recAout : ExportRecord :=
  ExportRecord.mk "Page A" "https://kb/x/a" (some "https://old/path/123") [] []

/-- The spec's "Page Z" input record, whose page id `999` matches nothing. -/
def recZ : ExportRecord := ExportRecord.mk "Page Z" "https://old/path/999" none [] []

/-- A redirect-stub record whose title carries the "Forward to" marker. -/
def fwdRec : ExportRecord := ExportRecord.mk "Forward to X" "https://old/path/123" none [] []

/-- A mapping exhibiting the non-idempotence of re-running the cleaner:
the first entry's identifier `"1"` is a substring of the second entry's
key. -/
def cm4 : Mapping := [("https://kb/x/1", "1"), ("https://kb/x/123", "123")]

/-- An already-cleaned record (exactly the four output fields, its url a
key of `cm4`). -/
def c4rec : ExportRecord := ExportRecord.mk "T" "https://kb/x/123" (some "https://old/123") [] []

/-- What the cleaner actually produces when re-run on `c4rec`: both
`url` and `internal_url` rewritten. -/
def c4out : ExportRecord := ExportRecord.mk "T" "https://kb/x/1" (some "https://kb/x/123") [] []

end ConfluenceDumper

deriving instance DecidableEq for Except

namespace ConfluenceDumper

/-! ### Bridging lemmas for the embedded string primitives -/

/-- `containsSub` decides list-infix containment, i.e. Python's `in`. -/
theorem containsSub_iff {hay needle : List Char} :
    containsSub hay needle = true ↔ needle <:+: hay := by
  induction hay with
  | nil =>
    simp [containsSub, List.isPrefixOf_iff_prefix, List.infix_nil, List.prefix_nil]
  | cons h t ih =>
    simp [containsSub, List.isPrefixOf_iff_prefix, List.infix_cons_iff, ih]

theorem splitOnSlash_ne_nil (l : List Char) : splitOnSlash l ≠ [] := by
  cases l with
  | nil => simp [splitOnSlash]
  | cons c cs =>
    by_cases hc : c == '/'
    · simp [splitOnSlash, hc]
    · simp only [splitOnSlash, hc, if_false]
      cases h : splitOnSlash cs <;> simp

/-- The first group produced by `splitOnSlash` is a prefix of the input. -/
theorem splitOnSlash_head (l : List Char) : (splitOnSlash l).headD [] <+: l := by
  induction l with
  | nil => simp [splitOnSlash]
  | cons c cs ih =>
    by_cases hc : c == '/'
    · simp [splitOnSlash, hc]
    · simp only [splitOnSlash, hc, if_false]
      cases h : splitOnSlash cs with
      | nil => exact absurd h (splitOnSlash_ne_nil cs)
      | cons g gs =>
        rw [h] at ih
        simpa [List.cons_prefix_cons] using ih

/-- Every group produced by `splitOnSlash` is a contiguous piece of the
input. -/
theorem splitOnSlash_mem {l g : List Char} (hg : g ∈ splitOnSlash l) : g <:+: l := by
  induction l generalizing g with
  | nil =>
    simp only [splitOnSlash, List.mem_singleton] at hg
    simp [hg]
  | cons c cs ih =>
    by_cases hc : c == '/'
    · simp only [splitOnSlash, hc, if_true, List.mem_cons] at hg
      rcases hg with rfl | hg
      · exact List.nil_infix
      · exact List.infix_cons (ih hg)
    · simp only [splitOnSlash, hc, if_false] at hg
      cases h : splitOnSlash cs with
      | nil => exact absurd h (splitOnSlash_ne_nil cs)
      | cons g0 gs =>
        rw [h] at hg
        rcases List.mem_cons.mp hg with rfl | hmem
        · have hpre : g0 <+: cs := by
            have := splitOnSlash_head cs
            rwa [h] at this
          exact ( List.cons_prefix_cons.mpr ⟨rfl, hpre⟩).isInfix
        · exact List.infix_cons (ih (h ▸ List.mem_cons_of_mem g0 hmem))

/-- Stripping trailing slashes yields a prefix of the original string. -/
theorem rstripSlashes_toList (s : String) : (rstripSlashes s).toList <+: s.toList := by
  show (List.asString (s.toList.rdropWhile (fun c => c == '/'))).toList <+: s.toList
  exact List.rdropWhile_prefix _ _

/-- The derived page id is always a contiguous substring of the url it is
derived from. -/
theorem currentPageId_piece (url : String) : (currentPageId url).toList <:+: url.toList := by
  show ((splitOnSlash (rstripSlashes url).toList).getLastD []).asString.toList <:+: url.toList
  have hne := splitOnSlash_ne_nil (rstripSlashes url).toList
  have hmem : (splitOnSlash (rstripSlashes url).toList).getLastD []
      ∈ splitOnSlash (rstripSlashes url).toList := by
    rw [List.getLastD_eq_getLast?, List.getLast?_eq_getLast _ hne]
    exact List.getLast_mem hne
  exact (splitOnSlash_mem hmem).trans (rstripSlashes_toList url).isInfix

/-- Python's `current_page_id in data["url"]` always holds: the page id is
cut out of the url itself. -/
theorem strContains_currentPageId (url : String) :
    strContains url (currentPageId url) = true :=
  containsSub_iff.mpr (currentPageId_piece url)

/-- Whenever the page-id equality scan (line 65) succeeds, the substring
scan (lines 66-70) finds an entry as well: the branch in which the
equality test succeeds but no identifier is a substring of the url is
unreachable. -/
theorem anyMatch_substring_entry {m : Mapping} {url : String}
    (h : anyValueMatches m url = true) : (findSubstringEntry m url).isSome = true := by
  rcases List.any_eq_true.mp h with ⟨v, hv, hbeq⟩
  rcases List.mem_map.mp hv with ⟨kv, hkv, rfl⟩
  refine List.find?_isSome.mpr ⟨kv, hkv, ?_⟩
  have : kv.snd = currentPageId url := beq_iff_eq.mp hbeq
  rw [this]
  exact strContains_currentPageId url

/-- The rewrite step never touches the record's title. -/
theorem rewriteRecord_title (m : Mapping) (data : ExportRecord) :
    (rewriteRecord m data).title = data.title := by
  unfold rewriteRecord
  cases findSubstringEntry m data.url <;> rfl

end ConfluenceDumper

namespace ConfluenceDumper

/-! ### Claim theorems -/

/-- Claim C1: for a record whose derived page id equals some mapping
value, the cleaner scans the mapping in insertion order and, at the first
entry whose identifier is a substring of the record's url, sets
`internal_url` to the original url and replaces `url` with that entry's
key, emitting the record restricted to the four output fields; in the
spec's concrete scenario the "Page A" record is rewritten to the
`https://kb/x/a` key and that key is appended to the succeeded list. -/
theorem clean_rewrites_first_substring_entry (m : Mapping) (data : ExportRecord)
    (k v : String)
    (hmatch : anyValueMatches m data.url = true)
    (hfind : findSubstringEntry m data.url = some (k, v))
    (hfwd : pyStartswith data.title "Forward to" = false) :
    processRecord m data
      = ProcessResult.emit (ExportRecord.mk data.title k (some data.url) data.paragraphs [])
    ∧ cleanFiles exMapping [("pageA.json", recA)]
      = Except.ok (CleanResult.mk [("pageA.json", recAout)] ["https://kb/x/a"] []) := by
  constructor
  · simp only [processRecord, hmatch, if_true, rewriteRecord, hfind, restrictFields, hfwd,
      Bool.false_eq_true, if_false]
  · decide

/-- Witness for C1 at the spec's concrete scenario. -/
theorem clean_rewrites_first_substring_entry_witness :
    anyValueMatches exMapping recA.url = true
    ∧ findSubstringEntry exMapping recA.url = some ("https://kb/x/a", "123")
    ∧ pyStartswith recA.title "Forward to" = false
    ∧ (processRecord exMapping recA
        = ProcessResult.emit
            (ExportRecord.mk recA.title "https://kb/x/a" (some recA.url) recA.paragraphs [])
      ∧ cleanFiles exMapping [("pageA.json", recA)]
        = Except.ok (CleanResult.mk [("pageA.json", recAout)] ["https://kb/x/a"] [])) :=
  ⟨by decide, by decide, by decide,
    clean_rewrites_first_substring_entry exMapping recA "https://kb/x/a" "123"
      (by decide) (by decide) (by decide)⟩

/-- Claim C2: a record whose derived page id (last segment of the url
after stripping trailing slashes and splitting on `/`) equals no mapping
value is a soft failure: its url goes to the failed list, nothing is
emitted and nothing is raised; in the spec's concrete scenario the
"Page Z" record produces no output file and `https://old/path/999` is
appended to the failed list. -/
theorem unmatched_record_soft_failure (m : Mapping) (data : ExportRecord)
    (hno : ∀ pid ∈ mappingValues m, pid ≠ currentPageId data.url) :
    processRecord m data = ProcessResult.fail data.url
    ∧ cleanFiles exMapping [("pageZ.json", recZ)]
      = Except.ok (CleanResult.mk [] [] ["https://old/path/999"]) := by
  have hm : anyValueMatches m data.url = false := by
    simp only [anyValueMatches, List.any_eq_false]
    intro pid hpid
    simpa [beq_iff_eq] using hno pid hpid
  constructor
  · simp only [processRecord, hm, Bool.false_eq_true, if_false]
  · decide

/-- Witness for C2 at the spec's concrete scenario. -/
theorem unmatched_record_soft_failure_witness :
    (∀ pid ∈ mappingValues exMapping, pid ≠ currentPageId recZ.url)
    ∧ (processRecord exMapping recZ = ProcessResult.fail recZ.url
      ∧ cleanFiles exMapping [("pageZ.json", recZ)]
        = Except.ok (CleanResult.mk [] [] ["https://old/path/999"])) :=
  ⟨by decide, unmatched_record_soft_failure exMapping recZ (by decide)⟩

/-- Claim C5 (code bug): on a folder with zero export records both lists
are empty, but the report line divides `len(good)` by
`len(good + failed) = 0`, so `clean_export_data` ends in a
`ZeroDivisionError` instead of reporting cleanly. -/
theorem zero_records_division_error (m : Mapping) :
    cleanFiles m [] = Except.ok (CleanResult.mk [] [] [])
    ∧ successRate [] [] = none
    ∧ clean_export_data m [] = Except.error () :=
  ⟨rfl, rfl, rfl⟩

end ConfluenceDumper

namespace ConfluenceDumper

/-- Counterexample to claim C4 as stated: `c4rec` carries exactly the
four cleaned fields and its url `https://kb/x/123` is a key of `cm4`,
yet re-running the cleaner rewrites it — the first substring-matching
entry is `("https://kb/x/1", "1")`, so `url` becomes `https://kb/x/1`
and `internal_url` is overwritten with the current url. -/
theorem reclean_not_idempotent_counterexample :
    hasKey cm4 c4rec.url = true
    ∧ c4rec.extra = []
    ∧ c4rec.internal_url.isSome = true
    ∧ cleanFiles cm4 [("t.json", c4rec)]
        = Except.ok (CleanResult.mk [("t.json", c4out)] ["https://kb/x/1"] [])
    ∧ c4out.url ≠ c4rec.url
    ∧ c4out.internal_url ≠ c4rec.internal_url := by
  refine ⟨by decide, rfl, rfl, by decide, by decide, by decide⟩

/-- Claim C4 amended: on an already-cleaned record whose url equals a
mapping key, the cleaner leaves `internal_url` and `url` untouched only
when the derived page id equals no mapping value — the record is then
reported as failed, not rewritten; when the page id does match, the
substring scan rewrites `internal_url` to the current url and `url` to
the first substring-matching key, which can change both fields. -/
theorem reclean_unmatched_keeps_fields (m : Mapping) (r : ExportRecord)
    (hclean : r.extra = [] ∧ r.internal_url.isSome = true)
    (hkey : hasKey m r.url = true)
    (hno : anyValueMatches m r.url = false) :
    processRecord m r = ProcessResult.fail r.url := by
  simp only [processRecord, hno, Bool.false_eq_true, if_false]

/-- Witness for the amended C4: a cleaned record whose url is a mapping
key but whose page id `a` matches no identifier. -/
theorem reclean_unmatched_keeps_fields_witness :
    ((ExportRecord.mk "T" "https://kb/x/a" (some "https://old/1") [] []).extra = []
      ∧ (ExportRecord.mk "T" "https://kb/x/a" (some "https://old/1") [] []).internal_url.isSome = true)
    ∧ hasKey exMapping "https://kb/x/a" = true
    ∧ anyValueMatches exMapping "https://kb/x/a" = false
    ∧ processRecord exMapping (ExportRecord.mk "T" "https://kb/x/a" (some "https://old/1") [] [])
        = ProcessResult.fail "https://kb/x/a" :=
  ⟨⟨rfl, rfl⟩, by decide, by decide,
    reclean_unmatched_keeps_fields exMapping
      (ExportRecord.mk "T" "https://kb/x/a" (some "https://old/1") [] [])
      ⟨rfl, rfl⟩ (by decide) (by decide)⟩

/-- Claim C6: a record whose title starts with "Forward to" is never
written to the output folder, whatever the mapping outcome: its
processing ends in a skip (page id matched) or a soft failure (no
match), and a singleton folder holding it yields no output file and an
empty succeeded list. -/
theorem forward_to_never_emitted (m : Mapping) (fname : String) (data : ExportRecord)
    (hfwd : pyStartswith data.title "Forward to" = true) :
    (processRecord m data = ProcessResult.skip
      ∨ processRecord m data = ProcessResult.fail data.url)
    ∧ cleanFiles m [(fname, data)]
      = Except.ok (CleanResult.mk [] []
          (if pyEndswith fname ".json" && !anyValueMatches m data.url then [data.url] else [])) := by
  have hP : processRecord m data = ProcessResult.skip
      ∨ processRecord m data = ProcessResult.fail data.url := by
    by_cases hb : anyValueMatches m data.url
    · left
      simp only [processRecord, hb, if_true, rewriteRecord_title m data, hfwd]
    · right
      simp only [processRecord, hb, Bool.false_eq_true, if_false]
  refine ⟨hP, ?_⟩
  by_cases hj : pyEndswith fname ".json"
  · by_cases hb : anyValueMatches m data.url
    · have hskip : processRecord m data = ProcessResult.skip := by
        simp only [processRecord, hb, if_true, rewriteRecord_title m data, hfwd]
      simp [cleanFiles, hj, hskip, hb]
    · have hfail : processRecord m data = ProcessResult.fail data.url := by
        simp only [processRecord, hb, Bool.false_eq_true, if_false]
      simp [cleanFiles, hj, hfail, hb]
  · simp [cleanFiles, hj]

/-- Witness for C6 at a "Forward to X" record whose page id matches. -/
theorem forward_to_never_emitted_witness :
    pyStartswith fwdRec.title "Forward to" = true
    ∧ ((processRecord exMapping fwdRec = ProcessResult.skip
        ∨ processRecord exMapping fwdRec = ProcessResult.fail fwdRec.url)
      ∧ cleanFiles exMapping [("fwd.json", fwdRec)]
        = Except.ok (CleanResult.mk [] []
            (if pyEndswith "fwd.json" ".json" && !anyValueMatches exMapping fwdRec.url
              then [fwdRec.url] else []))) :=
  ⟨by decide, forward_to_never_emitted exMapping "fwd.json" fwdRec (by decide)⟩

/-- Claim C8: a file whose name does not end in `.json` contributes
nothing to a run — deleting it from the folder leaves the whole result
(outputs, succeeded list, failed list) unchanged. -/
theorem non_json_file_skipped (m : Mapping) (pre post : List (String × ExportRecord))
    (fname : String) (data : ExportRecord)
    (hjson : pyEndswith fname ".json" = false) :
    cleanFiles m (pre ++ (fname, data) :: post) = cleanFiles m (pre ++ post) := by
  induction pre with
  | nil => simp [cleanFiles, hjson]
  | cons hd tl ih =>
    obtain ⟨g, d⟩ := hd
    simp only [List.cons_append, cleanFiles, List.append_eq, ih]

/-- Witness for C8: a `notes.txt` file in the middle of the folder. -/
theorem non_json_file_skipped_witness :
    pyEndswith "notes.txt" ".json" = false
    ∧ cleanFiles exMapping [("pageA.json", recA), ("notes.txt", recZ), ("pageZ.json", recZ)]
      = cleanFiles exMapping [("pageA.json", recA), ("pageZ.json", recZ)] :=
  ⟨by decide,
    non_json_file_skipped exMapping [("pageA.json", recA)] [("pageZ.json", recZ)]
      "notes.txt" recZ (by decide)⟩

end ConfluenceDumper

namespace ConfluenceDumper

/-- A Python list comprehension `[f(u) for u in l if p(u)]` is
`map f` over `filter p`. -/
theorem foldr_filterMap (p : String → Bool) (f : String → String) (l : List String) :
    l.foldr (fun u acc => if p u then f u :: acc else acc) []
      = (l.filter p).map f := by
  induction l with
  | nil => rfl
  | cons a t ih => by_cases hp : p a <;> simp [List.filter_cons, hp, ih]

/-- `startswith` survives prepending the same string on both sides. -/
theorem pyStartswith_append (b s p : String) (h : pyStartswith s p = true) :
    pyStartswith (b ++ s) (b ++ p) = true := by
  simp only [pyStartswith, List.isPrefixOf_iff_prefix] at h ⊢
  have hb : (b ++ s).toList = b.toList ++ s.toList := String.data_append b s
  have hp2 : (b ++ p).toList = b.toList ++ p.toList := String.data_append b p
  rw [hb, hp2]
  exact ( List.prefix_append_right_inj b.toList).mpr h

/-- Claim C7: every URL `extract_href_urls` returns is the fixed base
origin prepended to an href capture whose path begins with
`/{url_subdir}/` — hence starts with `{base_url}/{url_subdir}/` — and
the output is exactly the in-order, duplicate-preserving image of the
matching captures. -/
theorem extracted_urls_within_subdir (base subdir text u : String)
    (hu : u ∈ extract_href_urls base text subdir) :
    (∃ s, s ∈ findallHref text ∧ pyStartswith s ("/" ++ subdir ++ "/") = true ∧ u = base ++ s)
    ∧ pyStartswith u (base ++ ("/" ++ subdir ++ "/")) = true
    ∧ extract_href_urls base text subdir
      = ((findallHref text).filter (fun s => pyStartswith s ("/" ++ subdir ++ "/"))).map
          (fun s => base ++ s) := by
  have heq : extract_href_urls base text subdir
      = ((findallHref text).filter (fun s => pyStartswith s ("/" ++ subdir ++ "/"))).map
          (fun s => base ++ s) :=
    foldr_filterMap _ _ _
  rw [heq] at hu
  rcases List.mem_map.mp hu with ⟨s, hs, rfl⟩
  rcases List.mem_filter.mp hs with ⟨hmem, hpfx⟩
  exact ⟨⟨s, hmem, hpfx, rfl⟩, pyStartswith_append base s _ hpfx, heq⟩

/-- Witness for C7 on a small HTML snippet with one matching and one
non-matching href. -/
theorem extracted_urls_within_subdir_witness :
    "https://x/kb/p1" ∈ extract_href_urls "https://x" "<a href=\"/kb/p1\"><a href=\"/other/z\">" "kb"
    ∧ ((∃ s, s ∈ findallHref "<a href=\"/kb/p1\"><a href=\"/other/z\">"
          ∧ pyStartswith s ("/" ++ "kb" ++ "/") = true ∧ "https://x/kb/p1" = "https://x" ++ s)
      ∧ pyStartswith "https://x/kb/p1" ("https://x" ++ ("/" ++ "kb" ++ "/")) = true
      ∧ extract_href_urls "https://x" "<a href=\"/kb/p1\"><a href=\"/other/z\">" "kb"
        = ((findallHref "<a href=\"/kb/p1\"><a href=\"/other/z\">").filter
            (fun s => pyStartswith s ("/" ++ "kb" ++ "/"))).map (fun s => "https://x" ++ s)) :=
  ⟨by decide,
    extracted_urls_within_subdir "https://x" "kb" "<a href=\"/kb/p1\"><a href=\"/other/z\">"
      "https://x/kb/p1" (by decide)⟩

end ConfluenceDumper

namespace ConfluenceDumper

/-- Core of C9: in the traversal, the paragraph sitting after `pre` is
emitted with exactly the header the running-header fold over `pre`
holds, at the position given by the paragraphs already emitted from
`pre`. -/
theorem collectParagraphs_at (pre post : List HtmlElement) (p : HtmlElement) (h0 : String)
    (hp : p.name = "p") :
    (collectParagraphs h0 (pre ++ p :: post))[(collectParagraphs h0 pre).length]?
      = some (Paragraph.mk (runningHeader h0 pre) p.text) := by
  induction pre generalizing h0 with
  | nil =>
    have hP : isHeadingName "p" = false := by decide
    simp [collectParagraphs, hp, hP, runningHeader]
  | cons e tl ih =>
    simp only [List.cons_append]
    by_cases he : isHeadingName e.name
    · have h1 : collectParagraphs h0 (e :: (tl ++ p :: post))
          = collectParagraphs e.text (tl ++ p :: post) := by
        simp [collectParagraphs, he]
      have h2 : collectParagraphs h0 (e :: tl) = collectParagraphs e.text tl := by
        simp [collectParagraphs, he]
      have h3 : runningHeader h0 (e :: tl) = runningHeader e.text tl := by
        simp [runningHeader, List.foldl_cons, he]
      rw [h1, h2, h3]
      exact ih e.text
    · rw [Bool.not_eq_true] at he
      have h3 : runningHeader h0 (e :: tl) = runningHeader h0 tl := by
        simp [runningHeader, List.foldl_cons, he]
      by_cases hpe : e.name == "p"
      · have h1 : collectParagraphs h0 (e :: (tl ++ p :: post))
            = Paragraph.mk h0 e.text :: collectParagraphs h0 (tl ++ p :: post) := by
          simp [collectParagraphs, he, hpe]
        have h2 : collectParagraphs h0 (e :: tl)
            = Paragraph.mk h0 e.text :: collectParagraphs h0 tl := by
          simp [collectParagraphs, he, hpe]
        rw [h1, h2, h3, List.length_cons, List.getElem?_cons_succ]
        exact ih h0
      · rw [Bool.not_eq_true] at hpe
        have h1 : collectParagraphs h0 (e :: (tl ++ p :: post))
            = collectParagraphs h0 (tl ++ p :: post) := by
          simp [collectParagraphs, he, hpe]
        have h2 : collectParagraphs h0 (e :: tl) = collectParagraphs h0 tl := by
          simp [collectParagraphs, he, hpe]
        rw [h1, h2, h3]
        exact ih h0

/-- A traversal that meets no heading keeps its starting header. -/
theorem runningHeader_of_no_heading (h0 : String) (els : List HtmlElement)
    (h : ∀ e ∈ els, isHeadingName e.name = false) : runningHeader h0 els = h0 := by
  induction els with
  | nil => rfl
  | cons e tl ih =>
    have he := h e (List.mem_cons_self e tl)
    have : runningHeader h0 (e :: tl) = runningHeader h0 tl := by
      simp [runningHeader, List.foldl_cons, he]
    rw [this]
    exact ih fun x hx => h x (List.mem_cons_of_mem e hx)

/-- Claim C9: `extract_content` walks the elements in document order with
a running header, initially empty: each heading element updates it, and
each `p` element is emitted as `{header, content}` with the header value
active at that point — so the paragraph following a prefix `pre` of the
document carries `runningHeader "" pre`, and a paragraph before any
heading carries the empty-string header. -/
theorem extract_content_running_header (pre post : List HtmlElement) (p : HtmlElement)
    (titleTag : Option String) (web_url : String)
    (hp : p.name = "p") :
    (extract_content (pre ++ p :: post) titleTag web_url).paragraphs[(collectParagraphs "" pre).length]?
      = some (Paragraph.mk (runningHeader "" pre) p.text)
    ∧ ((∀ e ∈ pre, isHeadingName e.name = false) → runningHeader "" pre = "") :=
  ⟨collectParagraphs_at pre post p "" hp, runningHeader_of_no_heading "" pre⟩

/-- Witness for C9: a paragraph before any heading gets header `""`, and
one after an `h2` gets that heading's text. -/
theorem extract_content_running_header_witness :
    (HtmlElement.mk "p" "body").name = "p"
    ∧ ((extract_content ([HtmlElement.mk "p" "first", HtmlElement.mk "h2" "Sec"]
            ++ HtmlElement.mk "p" "body" :: [HtmlElement.mk "h3" "later"]) (some "T")
          "https://u").paragraphs[(collectParagraphs ""
            [HtmlElement.mk "p" "first", HtmlElement.mk "h2" "Sec"]).length]?
        = some (Paragraph.mk
            (runningHeader "" [HtmlElement.mk "p" "first", HtmlElement.mk "h2" "Sec"])
            (HtmlElement.mk "p" "body").text)
      ∧ ((∀ e ∈ [HtmlElement.mk "p" "first", HtmlElement.mk "h2" "Sec"],
            isHeadingName e.name = false)
          → runningHeader "" [HtmlElement.mk "p" "first", HtmlElement.mk "h2" "Sec"] = "")) :=
  ⟨rfl, extract_content_running_header
    [HtmlElement.mk "p" "first", HtmlElement.mk "h2" "Sec"] [HtmlElement.mk "h3" "later"]
    (HtmlElement.mk "p" "body") (some "T") "https://u" rfl⟩

end ConfluenceDumper

namespace ConfluenceDumper

/-- `dict[k] = v` never removes a key. -/
theorem hasKey_dictInsert (m : Mapping) (k v k2 : String) (h : hasKey m k2 = true) :
    hasKey (dictInsert m k v) k2 = true := by
  simp only [hasKey] at h ⊢
  unfold dictInsert
  by_cases hany : m.any (fun kv => kv.fst == k)
  · simp only [hany, if_true]
    rcases List.any_eq_true.mp h with ⟨kv, hkv, hb⟩
    refine List.any_eq_true.mpr
      ⟨if kv.fst == k then (k, v) else kv, List.mem_map.mpr ⟨kv, hkv, rfl⟩, ?_⟩
    by_cases hk : kv.fst == k
    · have h1 : kv.fst = k := beq_iff_eq.mp hk
      have h2 : kv.fst = k2 := beq_iff_eq.mp hb
      simp [hk, ← h1, h2]
    · simpa [hk] using hb
  · rw [Bool.not_eq_true] at hany
    simp only [hany, Bool.false_eq_true, if_false]
    simp [List.any_append, h]

/-- Over a whole `create_page_id_mapping` run the key set only grows. -/
theorem hasKey_create (resolve : String → String) (urls : List String) (m : Mapping)
    (k2 : String) (h : hasKey m k2 = true) :
    hasKey (create_page_id_mapping resolve m urls) k2 = true := by
  induction urls generalizing m with
  | nil => exact h
  | cons u us ih =>
    simp only [create_page_id_mapping, List.foldl_cons]
    exact ih (dictInsert m u (resolve u)) (hasKey_dictInsert m u (resolve u) k2 h)

/-- Updating the value stored under `k` does not disturb lookups of any
other key. -/
theorem find?_map_updateValue (m : Mapping) (k v k2 : String) (h : k2 ≠ k) :
    (m.map (fun kv => if kv.fst == k then (k, v) else kv)).find? (fun kv => kv.fst == k2)
      = m.find? (fun kv => kv.fst == k2) := by
  induction m with
  | nil => rfl
  | cons kv t ih =>
    simp only [List.map_cons]
    by_cases hk : kv.fst == k
    · have h1 : kv.fst = k := beq_iff_eq.mp hk
      have h2 : (kv.fst == k2) = false := beq_eq_false_iff_ne.mpr (by rw [h1]; exact fun hh => h hh.symm)
      have h3 : ((k : String) == k2) = false := beq_eq_false_iff_ne.mpr (fun hh => h hh.symm)
      simp only [hk, if_true, List.find?_cons, h2, h3]
      exact ih
    · rw [Bool.not_eq_true] at hk
      simp only [hk, Bool.false_eq_true, if_false, List.find?_cons]
      cases hp : (kv.fst == k2) with
      | true => rfl
      | false => exact ih

/-- `dict[k] = v` leaves the binding of every other key unchanged. -/
theorem dictGet_dictInsert_ne (m : Mapping) (k v k2 : String) (h : k2 ≠ k) :
    dictGet (dictInsert m k v) k2 = dictGet m k2 := by
  unfold dictGet dictInsert
  by_cases hany : m.any (fun kv => kv.fst == k)
  · simp only [hany, if_true]
    rw [find?_map_updateValue m k v k2 h]
  · rw [Bool.not_eq_true] at hany
    simp only [hany, Bool.false_eq_true, if_false]
    rw [List.find?_append]
    have h4 : List.find? (fun kv => kv.fst == k2) [(k, v)] = none := by
      simp [List.find?_cons, beq_eq_false_iff_ne.mpr (fun hh => h hh.symm)]
    rw [h4]
    cases List.find? (fun kv => kv.fst == k2) m <;> rfl

/-- An entry whose key is not among the urls being resolved survives a
whole `create_page_id_mapping` run untouched. -/
theorem dictGet_create_aux (resolve : String → String) (k2 v : String) :
    ∀ (urls : List String) (m : Mapping), k2 ∉ urls → dictGet m k2 = some v →
      dictGet (create_page_id_mapping resolve m urls) k2 = some v := by
  intro urls
  induction urls with
  | nil => intro m _ h; exact h
  | cons u us ih =>
    intro m hnm h
    simp only [create_page_id_mapping, List.foldl_cons]
    refine ih (dictInsert m u (resolve u)) (fun hx => hnm (List.mem_cons_of_mem u hx)) ?_
    rw [dictGet_dictInsert_ne m u (resolve u) k2
      (fun he => hnm (by rw [he]; exact List.mem_cons_self u us))]
    exact h

/-- A key with a stored value is a present key. -/
theorem hasKey_of_dictGet (m : Mapping) (k v : String) (h : dictGet m k = some v) :
    hasKey m k = true := by
  unfold dictGet at h
  have hs : (m.find? (fun kv => kv.fst == k)).isSome = true := by
    cases hf : m.find? (fun kv => kv.fst == k) with
    | none => rw [hf] at h; simp at h
    | some kv => rfl
  rcases List.find?_isSome.mp hs with ⟨x, hx, hpx⟩
  exact List.any_eq_true.mpr ⟨x, hx, hpx⟩

/-- Claim C10: the instance mapping only grows — `create_page_id_mapping`
inserts entries and never clears or removes existing ones (a key present
before a run is present after it, and an entry whose url is not
re-resolved keeps its identifier) — and the `__main__` sequence cleans
each space against the mapping accumulated through all earlier spaces,
not a fresh one. -/
theorem mapping_accumulates_across_spaces (resolve : String → String) (m : Mapping)
    (urls : List String) (k v : String)
    (folder : List (String × ExportRecord))
    (rest : List (List String × List (String × ExportRecord)))
    (hv : dictGet m k = some v) (hnm : k ∉ urls) :
    hasKey (create_page_id_mapping resolve m urls) k = true
    ∧ dictGet (create_page_id_mapping resolve m urls) k = some v
    ∧ runSpaces resolve m ((urls, folder) :: rest)
      = clean_export_data (create_page_id_mapping resolve m urls) folder
        :: runSpaces resolve (create_page_id_mapping resolve m urls) rest := by
  have h2 : dictGet (create_page_id_mapping resolve m urls) k = some v :=
    dictGet_create_aux resolve k v urls m hnm hv
  exact ⟨hasKey_of_dictGet _ k v h2, h2, rfl⟩

/-- Witness for C10: an entry resolved for an earlier space survives a
later space's `create_page_id_mapping` run and is matched against. -/
theorem mapping_accumulates_across_spaces_witness :
    dictGet [("k0", "v0")] "k0" = some "v0"
    ∧ "k0" ∉ ["u1"]
    ∧ (hasKey (create_page_id_mapping (fun u => u) [("k0", "v0")] ["u1"]) "k0" = true
      ∧ dictGet (create_page_id_mapping (fun u => u) [("k0", "v0")] ["u1"]) "k0" = some "v0"
      ∧ runSpaces (fun u => u) [("k0", "v0")] [(["u1"], [])]
        = clean_export_data (create_page_id_mapping (fun u => u) [("k0", "v0")] ["u1"]) []
          :: runSpaces (fun u => u) (create_page_id_mapping (fun u => u) [("k0", "v0")] ["u1"]) []) :=
  ⟨by decide, by decide,
    mapping_accumulates_across_spaces (fun u => u) [("k0", "v0")] ["u1"] "k0" "v0" [] []
      (by decide) (by decide)⟩

end ConfluenceDumper
